import Mathlib

/-!
# Verification of the Stoffel CLI core

Shallow embedding of the Stoffel project scaffolder / compilation
orchestrator (Rust sources `src/main.rs`, `src/init.rs`) together with
proofs about its configuration validation, threshold calculation, batch
compilation loop, project initialization, and manifest round-trip.

Machine integers: the Rust code uses `u8` for `parties` and `threshold`.
We embed `u8` values as `Nat` together with explicit wrap-around
(`% 256`) at the arithmetic operations where the source can overflow
(release-profile two's-complement wrapping semantics; debug builds would
panic at the same inputs).
-/

namespace Stoffel

/-- Wrapping `u8` addition (Rust release semantics for `a + b` on `u8`). -/
def u8add (a b : Nat) : Nat := (a + b) % 256

/-- Wrapping `u8` subtraction (Rust release semantics for `a - b` on `u8`),
valid for `a < 256`, `b ≤ 256`. -/
def u8sub (a b : Nat) : Nat := (a + 256 - b) % 256

/-- The MPC protocol tag from `src/main.rs` (`enum MpcProtocol`); the source
has a single variant. -/
inductive MpcProtocol where
  | Honeybadger
deriving DecidableEq, Repr

/-- The party-count error message from `validate_mpc_params` in `src/main.rs`
(the same literal also appears in `initialize_interactive` in `src/init.rs`). -/
def partyCountErrMsg : String := "HoneyBadger protocol requires at least 5 parties"

/-- The threshold error message built by `validate_mpc_params` in
`src/main.rs` via `format!`, with the reported maximum threshold `maxT`. -/
def thresholdErrMsg (parties maxT : Nat) : String :=
  "HoneyBadger protocol requires threshold < n/3. For " ++ toString parties ++
    " parties, max threshold is " ++ toString maxT

/-- Embedding of `validate_mpc_params` from `src/main.rs`:
`parties < 5` fails with the party-count error; otherwise
`threshold >= (parties + 2) / 3` (u8 arithmetic) fails with the threshold
error reporting `(parties + 2) / 3 - 1` (u8 arithmetic); otherwise `Ok(())`. -/
def validate_mpc_params (parties threshold : Nat) (protocol : MpcProtocol) :
    Except String Unit :=
  match protocol with
  | .Honeybadger =>
    if parties < 5 then
      .error partyCountErrMsg
    else if u8add parties 2 / 3 ≤ threshold then
      .error (thresholdErrMsg parties (u8sub (u8add parties 2 / 3) 1))
    else
      .ok ()

/-- Embedding of `calculate_threshold` from `src/main.rs`: for fewer than 5
parties it returns the fallback `1` ("validation will catch this"); otherwise
`(parties - 1) / 3`. -/
def calculate_threshold (parties : Nat) (protocol : MpcProtocol) : Nat :=
  match protocol with
  | .Honeybadger =>
    if parties < 5 then 1
    else (parties - 1) / 3

theorem u8add_eq_of_le (a b : Nat) (h : a + b ≤ 255) : u8add a b = a + b := by
  unfold u8add
  omega

/-- For party counts that do not overflow (`p ≤ 253`), the validator's
branch condition is exactly `(p + 2) / 3 ≤ t`. -/
theorem validate_eq_of_no_overflow (p t : Nat) (hp : p ≤ 253) :
    validate_mpc_params p t .Honeybadger =
      (if p < 5 then .error partyCountErrMsg
       else if (p + 2) / 3 ≤ t then
         .error (thresholdErrMsg p ((p + 2) / 3 - 1))
       else .ok ()) := by
  have h2 : u8add p 2 = p + 2 := u8add_eq_of_le p 2 (by omega)
  by_cases h5 : p < 5
  · unfold validate_mpc_params
    rw [if_pos h5, if_pos h5]
  · have hs : u8sub ((p + 2) / 3) 1 = (p + 2) / 3 - 1 := by
      unfold u8sub
      omega
    unfold validate_mpc_params
    rw [h2, hs]

/-- C1 (amended): for party counts `p ≤ 253` (no u8 overflow) and thresholds
`t ≤ 255`, validation succeeds iff `5 ≤ p` and `t < (p+2)/3`, equivalently iff
`5 ≤ p` and `p ≥ 3t+1`; `p < 5` fails with the party-count error; `p ≥ 5` with
`t ≥ (p+2)/3` fails with the threshold error reporting maximum `(p+2)/3 - 1`;
and for `p = 5`, `t = 1` passes while `t = 2` fails. -/
theorem validate_mpc_params_characterization (p t : Nat) (hp : p ≤ 253)
    (ht : t ≤ 255) :
    (validate_mpc_params p t .Honeybadger = .ok () ↔ 5 ≤ p ∧ t < (p + 2) / 3)
    ∧ (5 ≤ p ∧ t < (p + 2) / 3 ↔ 5 ≤ p ∧ 3 * t + 1 ≤ p)
    ∧ (p < 5 → validate_mpc_params p t .Honeybadger = .error partyCountErrMsg)
    ∧ (5 ≤ p → (p + 2) / 3 ≤ t →
        validate_mpc_params p t .Honeybadger =
          .error (thresholdErrMsg p ((p + 2) / 3 - 1)))
    ∧ validate_mpc_params 5 1 .Honeybadger = .ok ()
    ∧ validate_mpc_params 5 2 .Honeybadger = .error (thresholdErrMsg 5 1) := by
  rw [validate_eq_of_no_overflow p t hp]
  refine ⟨?_, by omega, ?_, ?_, rfl, rfl⟩
  · split_ifs with h5 ht3
    · exact ⟨fun h => absurd h (by simp), fun h => absurd h (by omega)⟩
    · exact ⟨fun h => absurd h (by simp), fun h => absurd h (by omega)⟩
    · exact ⟨fun _ => by omega, fun _ => rfl⟩
  · intro h5
    rw [if_pos h5]
  · intro h5 ht3
    rw [if_neg (by omega), if_pos ht3]

/-- Witness for `validate_mpc_params_characterization` at `p = 10`, `t = 2`. -/
theorem validate_mpc_params_characterization_witness :
    (10 : Nat) ≤ 253 ∧ (2 : Nat) ≤ 255 ∧
      (validate_mpc_params 10 2 .Honeybadger = .ok () ↔
        5 ≤ 10 ∧ 2 < (10 + 2) / 3) :=
  ⟨by omega, by omega,
    (validate_mpc_params_characterization 10 2 (by omega) (by omega)).1⟩

/-- C1 counterexample: at `p = 254`, `t = 0` the claim predicts success
(`254 ≥ 5` and `0 < (254+2)/3 = 85`), but the u8 computation `parties + 2`
wraps to `0`, so the validator rejects with the threshold error reporting the
wrapped maximum `255`. -/
theorem validate_mpc_params_overflow_cex :
    5 ≤ 254 ∧ 0 < (254 + 2) / 3 ∧
      validate_mpc_params 254 0 .Honeybadger = .error (thresholdErrMsg 254 255)
      ∧ validate_mpc_params 254 0 .Honeybadger ≠ .ok () := by
  have he : validate_mpc_params 254 0 .Honeybadger =
      .error (thresholdErrMsg 254 255) := rfl
  exact ⟨by omega, by omega, he, by simp [he]⟩

theorem calc_threshold_of_ge5 (p : Nat) (h5 : 5 ≤ p) :
    calculate_threshold p .Honeybadger = (p - 1) / 3 := by
  unfold calculate_threshold
  rw [if_neg (by omega)]

theorem validate_ok_of_auto (p : Nat) (h5 : 5 ≤ p) (hp : p ≤ 253) :
    validate_mpc_params p ((p - 1) / 3) .Honeybadger = .ok () := by
  rw [validate_eq_of_no_overflow _ _ hp, if_neg (by omega), if_neg (by omega)]

/-- C2 (amended): for `p ≥ 5`, the auto-calculated honeybadger threshold is
`(p - 1) / 3`; for `p < 5` the code instead returns the fallback `1`. -/
theorem calculate_threshold_eq (p : Nat) (h5 : 5 ≤ p) :
    calculate_threshold p .Honeybadger = (p - 1) / 3 :=
  calc_threshold_of_ge5 p h5

/-- Witness for `calculate_threshold_eq` at `p = 10`. -/
theorem calculate_threshold_eq_witness :
    (5 : Nat) ≤ 10 ∧ calculate_threshold 10 .Honeybadger = (10 - 1) / 3 :=
  ⟨by omega, calculate_threshold_eq 10 (by omega)⟩

/-- C2 counterexample: at `p = 1` the code returns the fallback `1`, not
`⌊(1-1)/3⌋ = 0` as the claim states for every party count. -/
theorem calculate_threshold_lt5_cex :
    calculate_threshold 1 .Honeybadger = 1 ∧ (1 - 1) / 3 = 0 ∧
      calculate_threshold 1 .Honeybadger ≠ (1 - 1) / 3 :=
  ⟨rfl, rfl, by decide⟩

/-- C3 (amended): for `5 ≤ p ≤ 253`, the auto-calculated threshold is
`(p-1)/3` and validating `(p, (p-1)/3)` succeeds. (At `p = 254, 255` the
validator's u8 overflow rejects the auto-calculated threshold.) -/
theorem auto_threshold_validates (p : Nat) (h5 : 5 ≤ p) (hp : p ≤ 253) :
    calculate_threshold p .Honeybadger = (p - 1) / 3 ∧
      validate_mpc_params p ((p - 1) / 3) .Honeybadger = .ok () := by
  exact ⟨calc_threshold_of_ge5 p h5, validate_ok_of_auto p h5 hp⟩

/-- Witness for `auto_threshold_validates` at `p = 10`. -/
theorem auto_threshold_validates_witness :
    (5 : Nat) ≤ 10 ∧ (10 : Nat) ≤ 253 ∧
      validate_mpc_params 10 ((10 - 1) / 3) .Honeybadger = .ok () :=
  ⟨by omega, by omega, (auto_threshold_validates 10 (by omega) (by omega)).2⟩

/-- C3 counterexample: at `p = 254` the auto-calculated threshold is `84`,
but validation of `(254, 84)` fails because the u8 computation `parties + 2`
wraps to `0`. -/
theorem auto_threshold_overflow_cex :
    5 ≤ 254 ∧ calculate_threshold 254 .Honeybadger = 84 ∧
      validate_mpc_params 254 84 .Honeybadger ≠ .ok () := by
  have he : validate_mpc_params 254 84 .Honeybadger =
      .error (thresholdErrMsg 254 255) := rfl
  exact ⟨by omega, rfl, by simp [he]⟩

/-- C4 (amended): for `5 ≤ p ≤ 253` and `t ≤ 255`, the set of thresholds the
validator accepts is `{ t | t < ⌈p/3⌉ }` — the ceiling of `p/3`, not of
`(p+1)/3` — and `⌈p/3⌉ = (p+2)/3` under integer division. -/
theorem validator_accepts_iff_ceil (p t : Nat) (h5 : 5 ≤ p) (hp : p ≤ 253)
    (ht : t ≤ 255) :
    (validate_mpc_params p t .Honeybadger = .ok () ↔ t < p ⌈/⌉ 3)
    ∧ p ⌈/⌉ 3 = (p + 2) / 3 := by
  have hc : p ⌈/⌉ 3 = (p + 2) / 3 := by
    rw [Nat.ceilDiv_eq_add_pred_div]
    omega
  rw [hc]
  refine ⟨?_, rfl⟩
  rw [validate_eq_of_no_overflow p t hp, if_neg (by omega)]
  by_cases ht3 : (p + 2) / 3 ≤ t
  · rw [if_pos ht3]
    exact ⟨fun h => absurd h (by simp), fun h => absurd h (by omega)⟩
  · rw [if_neg ht3]
    exact ⟨fun _ => by omega, fun _ => rfl⟩

/-- Witness for `validator_accepts_iff_ceil` at `p = 9`, `t = 3`. -/
theorem validator_accepts_iff_ceil_witness :
    (5 : Nat) ≤ 9 ∧ (9 : Nat) ≤ 253 ∧ (3 : Nat) ≤ 255 ∧
      (validate_mpc_params 9 3 .Honeybadger = .ok () ↔ 3 < 9 ⌈/⌉ 3) :=
  ⟨by omega, by omega, by omega,
    (validator_accepts_iff_ceil 9 3 (by omega) (by omega) (by omega)).1⟩

/-- C4 counterexample: at `p = 6` the claim's bound `ceil((6+1)/3) = 3`
accepts `t = 2`, but the validator rejects `t = 2` (its bound is
`(6+2)/3 = 2`): the two forms differ whenever `3 ∣ p`. -/
theorem ceil_bound_cex :
    5 ≤ 6 ∧ (2 : Nat) < (6 + 1) ⌈/⌉ 3 ∧
      validate_mpc_params 6 2 .Honeybadger ≠ .ok () := by
  have he : validate_mpc_params 6 2 .Honeybadger =
      .error (thresholdErrMsg 6 1) := rfl
  exact ⟨by omega, by decide, by simp [he]⟩

/-! ## Compilation orchestrator (`Commands::Compile` in `src/main.rs`)

The external compiler subprocess is modelled as an oracle
`rc : List String → Except String Bool`: `.error e` is a failed spawn
(`Failed to execute compiler`), `.ok b` is a completed run whose exit status
is success iff `b`.  `compile_single_file` builds the argument list and
invokes the oracle; the batch branch is modelled as a fold that records the
observable outcome (counts, attempted files, warnings, final exit). -/

/-- Flags of the `compile` command (from `Commands::Compile` in `src/main.rs`). -/
structure CompileFlags where
  binary : Bool
  disassemble : Bool
  printIr : Bool
  optLevel : Nat
deriving Repr, DecidableEq

/-- The argument list `compile_single_file` (in `src/main.rs`) builds for the
external compiler: source file, optional `-o <output>`, then
`--binary`, `--disassemble`, `--print-ir`, `-O<level>` (the last only when
the level is positive). -/
def buildArgs (file : String) (output : Option String) (f : CompileFlags) :
    List String :=
  [file]
    ++ (match output with
        | some out => ["-o", out]
        | none => [])
    ++ (if f.binary then ["--binary"] else [])
    ++ (if f.disassemble then ["--disassemble"] else [])
    ++ (if f.printIr then ["--print-ir"] else [])
    ++ (if 0 < f.optLevel then ["-O" ++ toString f.optLevel] else [])

/-- Embedding of `compile_single_file` from `src/main.rs`: build the argument
list and run the external compiler; the result is the subprocess's success
status, or a spawn error. -/
def compile_single_file (rc : List String → Except String Bool)
    (file : String) (output : Option String) (f : CompileFlags) :
    Except String Bool :=
  rc (buildArgs file output f)

/-- Observable outcome of the batch branch of `Commands::Compile`. -/
structure BatchOutcome where
  /-- the `successful` counter printed in the summary -/
  successful : Nat
  /-- the `failed` counter printed in the summary -/
  failed : Nat
  /-- the `(file, file_output)` pairs passed to `compile_single_file`, in order -/
  attempts : List (String × Option String)
  /-- whether the "Custom output path ignored" warning was printed -/
  outputWarned : Bool
  /-- whether the "No .stfl files found" note was printed -/
  emptyNote : Bool
  /-- whether the command ends in `process::exit(1)` -/
  exitFailure : Bool
deriving Repr

/-- The per-file output the batch loop passes on: the caller's custom output
is dropped when the batch discovered more than one file
(`output.is_some() && stfl_files.len() > 1` in `src/main.rs`). -/
def batchFileOutput (output : Option String) (total : Nat) : Option String :=
  if output.isSome && decide (1 < total) then none else output

/-- The batch compilation loop from `Commands::Compile` in `src/main.rs`:
one iteration per discovered file, incrementing the success/failure counters
from the subprocess result, recording each attempt; a spawn error (`?` on
`compile_single_file`) aborts the whole command. -/
def batchLoop (rc : List String → Except String Bool) (output : Option String)
    (f : CompileFlags) (total : Nat) :
    List String → Nat → Nat → List (String × Option String) → Bool →
      Except String (Nat × Nat × List (String × Option String) × Bool)
  | [], succ, failed, att, warned => .ok (succ, failed, att, warned)
  | file :: rest, succ, failed, att, warned =>
    let ignore := output.isSome && decide (1 < total)
    let fileOutput := batchFileOutput output total
    match compile_single_file rc file fileOutput f with
    | .error e => .error e
    | .ok true =>
      batchLoop rc output f total rest (succ + 1) failed
        (att ++ [(file, fileOutput)]) (warned || ignore)
    | .ok false =>
      batchLoop rc output f total rest succ (failed + 1)
        (att ++ [(file, fileOutput)]) (warned || ignore)

/-- Embedding of the batch branch of `Commands::Compile` in `src/main.rs`:
an empty discovery list prints a note and returns `Ok(())` without invoking
the compiler; otherwise every file is compiled in order and the command
exits nonzero iff at least one file failed. -/
def compileBatch (rc : List String → Except String Bool)
    (files : List String) (output : Option String) (f : CompileFlags) :
    Except String BatchOutcome :=
  if files.isEmpty then
    .ok ⟨0, 0, [], false, true, false⟩
  else
    match batchLoop rc output f files.length files 0 0 [] false with
    | .error e => .error e
    | .ok (succ, failed, att, warned) =>
      .ok ⟨succ, failed, att, warned, false, decide (0 < failed)⟩

/-- The success bit of a completed oracle run (`false` on a spawn error). -/
def resultBool : Except String Bool → Bool
  | .ok b => b
  | .error _ => false

/-- Whether the batch loop marks `file` as failed under oracle `rc`. -/
def fileFails (rc : List String → Except String Bool) (output : Option String)
    (f : CompileFlags) (total : Nat) (file : String) : Bool :=
  !resultBool (rc (buildArgs file (batchFileOutput output total) f))

theorem batchLoop_spec (rc : List String → Except String Bool)
    (output : Option String) (f : CompileFlags) (total : Nat)
    (hOk : ∀ args, (rc args).isOk = true) :
    ∀ (files : List String) (succ failed : Nat)
      (att : List (String × Option String)) (warned : Bool),
      batchLoop rc output f total files succ failed att warned =
        .ok (succ + files.countP (fun fl => !fileFails rc output f total fl),
             failed + files.countP (fileFails rc output f total),
             att ++ files.map (fun fl => (fl, batchFileOutput output total)),
             warned ||
               ((output.isSome && decide (1 < total)) && !files.isEmpty)) := by
  intro files
  induction files with
  | nil =>
    intro succ failed att warned
    simp [batchLoop]
  | cons file rest ih =>
    intro succ failed att warned
    have hr := hOk (buildArgs file (batchFileOutput output total) f)
    unfold batchLoop
    cases hc : rc (buildArgs file (batchFileOutput output total) f) with
    | error e =>
      rw [hc] at hr
      simp [Except.isOk, Except.toBool] at hr
    | ok b =>
      have hff : fileFails rc output f total file = !b := by
        unfold fileFails
        rw [hc]
        rfl
      cases b with
      | true =>
        simp only [compile_single_file, hc, ih]
        refine congrArg Except.ok ?_
        refine Prod.ext ?_ (Prod.ext ?_ (Prod.ext ?_ ?_)) <;>
          simp [List.countP_cons, hff] <;> try omega
        · cases warned <;> cases output.isSome <;> cases decide (1 < total) <;>
            simp <;> tauto
      | false =>
        simp only [compile_single_file, hc, ih]
        refine congrArg Except.ok ?_
        refine Prod.ext ?_ (Prod.ext ?_ (Prod.ext ?_ ?_)) <;>
          simp [List.countP_cons, hff] <;> try omega
        · cases warned <;> cases output.isSome <;> cases decide (1 < total) <;>
            simp <;> tauto

/-- C5: for a batch over discovered files in which every compiler spawn
completes (failures are per-file nonzero exits), every file is attempted in
order, the summary counters satisfy `successful + failed = N` with `failed`
counting exactly the files whose compile failed, and the command exits
nonzero iff at least one file failed. -/
theorem compileBatch_totals (rc : List String → Except String Bool)
    (files : List String) (output : Option String) (f : CompileFlags)
    (hOk : ∀ args, (rc args).isOk = true) :
    ∃ res : BatchOutcome,
      compileBatch rc files output f = .ok res ∧
      res.attempts.map Prod.fst = files ∧
      res.successful + res.failed = files.length ∧
      res.failed = files.countP (fileFails rc output f files.length) ∧
      (res.exitFailure = true ↔ 0 < res.failed) := by
  unfold compileBatch
  by_cases he : files.isEmpty
  · rw [if_pos he]
    refine ⟨_, rfl, ?_, ?_, ?_, ?_⟩ <;>
      simp_all [List.isEmpty_iff]
  · rw [if_neg he,
      batchLoop_spec rc output f files.length hOk files 0 0 [] false]
    refine ⟨_, rfl, ?_, ?_, ?_, ?_⟩
    · have hid : (Prod.fst ∘ fun fl : String =>
          (fl, batchFileOutput output files.length)) = id := rfl
      simp [hid]
    · simp only [Nat.zero_add]
      have hsplit := List.length_eq_countP_add_countP
        (p := fileFails rc output f files.length) (l := files)
      have hcompl :
          List.countP (fun fl => !fileFails rc output f files.length fl) files
            = List.countP
                (fun a => decide (¬fileFails rc output f files.length a = true))
                files := by
        congr 1
        funext a
        cases fileFails rc output f files.length a <;> simp
      omega
    · simp
    · simp

/-- Witness for `compileBatch_totals`: an oracle accepting everything, on a
two-file batch. -/
theorem compileBatch_totals_witness :
    (∀ args, ((fun _ : List String => (Except.ok true : Except String Bool))
        args).isOk = true) ∧
    ∃ res : BatchOutcome,
      compileBatch (fun _ => .ok true) ["a.stfl", "b.stfl"] none
          ⟨false, false, false, 0⟩ = .ok res ∧
      res.attempts.map Prod.fst = ["a.stfl", "b.stfl"] ∧
      res.successful + res.failed = (["a.stfl", "b.stfl"] : List String).length ∧
      res.failed = (["a.stfl", "b.stfl"] : List String).countP
          (fileFails (fun _ => .ok true) none ⟨false, false, false, 0⟩ 2) ∧
      (res.exitFailure = true ↔ 0 < res.failed) :=
  ⟨fun _ => rfl,
    compileBatch_totals (fun _ => .ok true) ["a.stfl", "b.stfl"] none
      ⟨false, false, false, 0⟩ (fun _ => rfl)⟩

/-- C6: a custom output path is passed to the external compiler exactly as
given (`-o <out>` right after the source file) in single-file mode and in a
one-file batch; in a batch of two or more files it is passed for no file and
the ignore warning is emitted. -/
theorem custom_output_policy (rc : List String → Except String Bool)
    (f : CompileFlags) (hOk : ∀ args, (rc args).isOk = true) :
    (∀ file out, compile_single_file rc file (some out) f =
        rc ([file, "-o", out] ++ List.drop 1 (buildArgs file none f)))
    ∧ (∀ fl output, ∃ res, compileBatch rc [fl] output f = .ok res ∧
        res.attempts = [(fl, output)] ∧ res.outputWarned = false)
    ∧ (∀ files output, 2 ≤ files.length → output.isSome = true →
        ∃ res, compileBatch rc files output f = .ok res ∧
          (∀ p ∈ res.attempts, p.2 = none) ∧ res.outputWarned = true) := by
  refine ⟨?_, ?_, ?_⟩
  · intro file out
    simp [compile_single_file, buildArgs]
  · intro fl output
    unfold compileBatch
    rw [if_neg (by simp),
      batchLoop_spec rc output f [fl].length hOk [fl] 0 0 [] false]
    refine ⟨_, rfl, ?_, ?_⟩
    · simp [batchFileOutput]
    · simp
  · intro files output h2 hs
    unfold compileBatch
    have hne : files.isEmpty = false := by
      cases files with
      | nil => simp at h2
      | cons a l => simp
    rw [hne, if_neg (by simp),
      batchLoop_spec rc output f files.length hOk files 0 0 [] false]
    have hign : batchFileOutput output files.length = none := by
      unfold batchFileOutput
      rw [if_pos (by simp [hs]; omega)]
    refine ⟨_, rfl, ?_, ?_⟩
    · intro p hp
      simp only [List.nil_append, List.mem_map] at hp
      obtain ⟨fl, _, hfl⟩ := hp
      rw [← hfl, hign]
    · simp only []
      rw [hs]
      cases files with
      | nil => simp at h2
      | cons a l =>
        simp only [List.isEmpty_cons, Bool.not_false, Bool.and_true]
        rw [decide_eq_true (by simpa using h2)]
        rfl

/-- Witness for `custom_output_policy`: the always-succeeding oracle,
single-file invocation of file `"m.stfl"` with output `"out.bin"`. -/
theorem custom_output_policy_witness :
    compile_single_file (fun _ => (.ok true : Except String Bool)) "m.stfl"
        (some "out.bin") ⟨false, false, false, 0⟩ =
      (fun _ => (.ok true : Except String Bool))
        (["m.stfl", "-o", "out.bin"] ++
          List.drop 1 (buildArgs "m.stfl" none ⟨false, false, false, 0⟩)) :=
  (custom_output_policy (fun _ => .ok true) ⟨false, false, false, 0⟩
    (fun _ => rfl)).1 "m.stfl" "out.bin"

/-- C9: a batch compile whose discovery found no source files prints the
informational note, exits successfully, and invokes the compiler on
nothing. -/
theorem compileBatch_empty (rc : List String → Except String Bool)
    (output : Option String) (f : CompileFlags) :
    ∃ res : BatchOutcome,
      compileBatch rc [] output f = .ok res ∧
      res.emptyNote = true ∧ res.exitFailure = false ∧
      res.attempts = [] ∧ res.successful = 0 ∧ res.failed = 0 :=
  ⟨_, rfl, rfl, rfl, rfl, rfl, rfl⟩

/-! ## Configuration model and manifest (from `src/init.rs`)

`HashMap<String, String>` dependency maps are embedded as association
lists (the list order standing for one iteration order of the map). -/

/-- `PackageConfig` from `src/init.rs`. -/
structure PackageConfig where
  name : String
  version : String
  description : Option String
  authors : Option (List String)
  license : Option String
deriving Repr, DecidableEq

/-- `MpcConfig` from `src/init.rs`. -/
structure MpcConfig where
  protocol : String
  parties : Nat
  threshold : Option Nat
  field : String
deriving Repr, DecidableEq

/-- `StoffelConfig` from `src/init.rs`. -/
structure StoffelConfig where
  package : PackageConfig
  mpc : MpcConfig
  dependencies : Option (List (String × String))
  dev_dependencies : Option (List (String × String))
deriving Repr, DecidableEq

/-- A filesystem mutation performed during scaffolding. -/
inductive FsOp where
  | createDirAll (path : String)
  | write (path : String) (content : String)
deriving Repr, DecidableEq

/-- Decimal digits of `n`, as printed into the manifest for `u8` values. -/
def natChars (n : Nat) : List Char := Nat.toDigits 10 n

/-- A TOML basic string literal: `"` content `"` (no escaping; the proofs
assume contents need none). -/
def quoteChars (s : String) : List Char := '"' :: (s.data ++ ['"'])

/-- A `key = value` manifest line. -/
def kvLine (key : String) (v : List Char) : List Char :=
  key.data ++ (' ' :: '=' :: ' ' :: v)

/-- A `[section]` manifest header line. -/
def headerLine (name : String) : List Char := '[' :: (name.data ++ [']'])

/-- The comma-separated quoted items of a TOML string array. -/
def arrItems : List String → List Char
  | [] => []
  | [s] => quoteChars s
  | s :: rest => quoteChars s ++ (',' :: ' ' :: arrItems rest)

/-- A TOML array of strings: `["a", "b"]`. -/
def arrChars (ss : List String) : List Char := '[' :: (arrItems ss ++ [']'])

/-- Zero or one manifest lines for an optional field (TOML omits absent
optional fields). -/
def optLine {α : Type} (key : String) (enc : α → List Char) :
    Option α → List (List Char)
  | none => []
  | some a => [kvLine key (enc a)]

/-- The `[package]` section lines of the manifest. -/
def packageLines (p : PackageConfig) : List (List Char) :=
  [headerLine "package",
   kvLine "name" (quoteChars p.name),
   kvLine "version" (quoteChars p.version)]
  ++ optLine "description" quoteChars p.description
  ++ optLine "authors" arrChars p.authors
  ++ optLine "license" quoteChars p.license

/-- The `[mpc]` section lines of the manifest. -/
def mpcLines (m : MpcConfig) : List (List Char) :=
  [headerLine "mpc",
   kvLine "protocol" (quoteChars m.protocol),
   kvLine "parties" (natChars m.parties)]
  ++ optLine "threshold" natChars m.threshold
  ++ [kvLine "field" (quoteChars m.field)]

/-- The lines of an optional dependency table (blank separator, header,
one `name = "version"` line per entry). -/
def depLines (title : String) :
    Option (List (String × String)) → List (List Char)
  | none => []
  | some deps =>
    [] :: headerLine title :: deps.map (fun kv => kvLine kv.1 (quoteChars kv.2))

/-- All manifest lines of a config: `[package]`, blank, `[mpc]`, then the
optional dependency tables. -/
def configLines (c : StoffelConfig) : List (List Char) :=
  packageLines c.package ++ ([] :: mpcLines c.mpc)
    ++ depLines "dependencies" c.dependencies
    ++ depLines "dev_dependencies" c.dev_dependencies

/-- Join lines with newline separators. -/
def joinLines : List (List Char) → List Char
  | [] => []
  | [l] => l
  | l :: rest => l ++ ('\n' :: joinLines rest)

/-- Modelled from the spec: `toml::to_string` (external `toml` crate, invoked
by `create_project_structure` in `src/init.rs`; its implementation is not in
this repository) — the persisted manifest text, a structured document with
top-level sections `package` (name, version, description, authors, license)
and `mpc` (protocol, parties, threshold, field) plus optional dependency
sections, absent optional fields omitted. -/
def toml_to_string (c : StoffelConfig) : String := ⟨joinLines (configLines c)⟩

/-- Embedding of `create_project_structure` from `src/init.rs`: create the
project directory, write `Stoffel.toml` with the serialized config, then
write the library or application file set.  The ecosystem-specific writers
(`create_library_structure`, `create_project_structure_full` and the
per-ecosystem generators — pre-authored template text no claim inspects) are
abstracted as the `eco` parameter; every theorem below holds for all
instantiations.  The returned list is the ordered filesystem mutations
attempted (each may fail at runtime; failure aborts without rollback). -/
def create_project_structure
    (eco : Bool → Option String → StoffelConfig → List FsOp)
    (path : String) (config : StoffelConfig) (isLib : Bool)
    (template : Option String) : List FsOp :=
  FsOp.createDirAll path
    :: FsOp.write (path ++ "/Stoffel.toml") (toml_to_string config)
    :: eco isLib template config

/-- `prompt_with_default` from `src/init.rs`: a blank (after trim) entry
selects the default, otherwise the trimmed entry. -/
def prompt_with_default (entry default : String) : String :=
  if entry.trim.isEmpty then default else entry.trim

/-- `prompt_optional` from `src/init.rs`: the trimmed entry. -/
def prompt_optional (entry : String) : String := entry.trim

/-- The console entries of one interactive `init` session, in prompt order.
`parties` is the value parsed by `prompt_with_default_parsed::<u8>` (a blank
entry parses the displayed default `5`). -/
structure InteractiveInputs where
  projectName : String
  description : String
  author : String
  parties : Nat
  fieldName : String
  ecosystemChoice : String

/-- Embedding of `initialize_interactive` from `src/init.rs`: resolve the
prompts, reject party counts below 5 before any filesystem mutation,
auto-calculate the threshold, pick the ecosystem template, build the config
and scaffold it.  `gitUser` is the result of `get_git_user` (a `git config`
subprocess).  Returns the ordered filesystem mutations and the result. -/
def initialize_interactive
    (eco : Bool → Option String → StoffelConfig → List FsOp)
    (gitUser : Option String) (inputs : InteractiveInputs)
    (name path : String) (isLib : Bool) :
    List FsOp × Except String StoffelConfig :=
  let project_name := prompt_with_default inputs.projectName name
  let description := prompt_optional inputs.description
  let author := prompt_with_default inputs.author (gitUser.getD "Unknown")
  let parties := inputs.parties
  let fieldName := prompt_with_default inputs.fieldName "bls12-381"
  if parties < 5 then
    ([], .error partyCountErrMsg)
  else
    let threshold := (parties - 1) / 3
    let template : Option String :=
      if !isLib then
        let choice := prompt_with_default inputs.ecosystemChoice "5"
        if choice = "1" then some "python"
        else if choice = "2" then some "rust"
        else if choice = "3" then some "typescript"
        else if choice = "4" then some "solidity"
        else some "stoffel"
      else none
    let config : StoffelConfig :=
      { package :=
          { name := project_name, version := "0.1.0",
            description := if description.isEmpty then none else some description,
            authors := some [author], license := some "MIT" },
        mpc :=
          { protocol := "honeybadger", parties := parties,
            threshold := some threshold, field := fieldName },
        dependencies := none, dev_dependencies := none }
    (create_project_structure eco path config isLib template, .ok config)

/-- `get_template_description` from `src/init.rs`. -/
def get_template_description (template : String) : String :=
  if template = "python" then "Python SDK integration for MPC applications"
  else if template = "rust" then "Rust FFI integration with StoffelVM"
  else if template = "typescript" then "TypeScript/Node.js MPC integration"
  else if template = "solidity" then "Solidity smart contract with MPC integration"
  else "A Stoffel MPC application"

/-- Embedding of `initialize_from_template` from `src/init.rs`: a canonical
config (version 0.1.0, honeybadger, 5 parties, threshold 1, bls12-381)
with the template's description, scaffolded with the named template. -/
def initialize_from_template
    (eco : Bool → Option String → StoffelConfig → List FsOp)
    (gitUser : Option String) (name path template : String) (isLib : Bool) :
    List FsOp × StoffelConfig :=
  let config : StoffelConfig :=
    { package :=
        { name := name, version := "0.1.0",
          description := some (get_template_description template),
          authors := some [gitUser.getD "Unknown"], license := some "MIT" },
      mpc :=
        { protocol := "honeybadger", parties := 5,
          threshold := some 1, field := "bls12-381" },
      dependencies := none, dev_dependencies := none }
  (create_project_structure eco path config isLib (some template), config)

/-- Embedding of `initialize_default` from `src/init.rs`: the unconditional
default config, scaffolded with the "basic" template. -/
def initialize_default
    (eco : Bool → Option String → StoffelConfig → List FsOp)
    (gitUser : Option String) (name path : String) (isLib : Bool) :
    List FsOp × StoffelConfig :=
  let config : StoffelConfig :=
    { package :=
        { name := name, version := "0.1.0",
          description := some "A Stoffel MPC application",
          authors := some [gitUser.getD "Unknown"], license := some "MIT" },
      mpc :=
        { protocol := "honeybadger", parties := 5,
          threshold := some 1, field := "bls12-381" },
      dependencies := none, dev_dependencies := none }
  (create_project_structure eco path config isLib (some "basic"), config)

/-- C8: an interactive init whose entered party count is below 5 returns the
error containing "requires at least 5 parties" and performs no filesystem
mutation (the returned mutation list is empty: the rejection precedes
`create_project_structure`). -/
theorem interactive_lt5_no_fs
    (eco : Bool → Option String → StoffelConfig → List FsOp)
    (gitUser : Option String) (inputs : InteractiveInputs)
    (name path : String) (isLib : Bool) (h : inputs.parties < 5) :
    initialize_interactive eco gitUser inputs name path isLib =
      ([], .error partyCountErrMsg) ∧
    partyCountErrMsg =
      "HoneyBadger protocol " ++ "requires at least 5 parties" ++ "" := by
  constructor
  · simp only [initialize_interactive]
    rw [if_pos h]
  · rfl

/-- Witness for `interactive_lt5_no_fs`: a session entering 4 parties. -/
theorem interactive_lt5_no_fs_witness :
    (4 : Nat) < 5 ∧
      initialize_interactive (fun _ _ _ => []) none
        ⟨"demo", "", "alice", 4, "", "5"⟩ "demo" "proj" false =
        ([], .error partyCountErrMsg) :=
  ⟨by omega,
    (interactive_lt5_no_fs (fun _ _ _ => []) none
      ⟨"demo", "", "alice", 4, "", "5"⟩ "demo" "proj" false (by decide)).1⟩

/-- C10 (amended): every config constructed by init (interactive, template,
or default path) has protocol "honeybadger", `parties ≥ 5`, and a present
threshold `t` with `t < (parties+2)/3` in exact integer arithmetic; whenever
`parties ≤ 253` those parameters also pass `validate_mpc_params`.  (For
`parties ∈ {254, 255}` — reachable only through the interactive path — the
validator's u8 overflow rejects the written parameters, so "passes
validation" does not hold there.) -/
theorem init_configs_invariant
    (eco : Bool → Option String → StoffelConfig → List FsOp)
    (gitUser : Option String) :
    (∀ inputs name path isLib ops cfg,
        initialize_interactive eco gitUser inputs name path isLib =
          (ops, .ok cfg) →
        cfg.mpc.protocol = "honeybadger" ∧ 5 ≤ cfg.mpc.parties ∧
        ∃ t, cfg.mpc.threshold = some t ∧ t < (cfg.mpc.parties + 2) / 3 ∧
          (cfg.mpc.parties ≤ 253 →
            validate_mpc_params cfg.mpc.parties t .Honeybadger = .ok ()))
    ∧ (∀ name path template isLib,
        ((initialize_from_template eco gitUser name path template
            isLib).2.mpc.protocol = "honeybadger") ∧
        5 ≤ (initialize_from_template eco gitUser name path template
            isLib).2.mpc.parties ∧
        (initialize_from_template eco gitUser name path template
            isLib).2.mpc.threshold = some 1 ∧
        validate_mpc_params
          (initialize_from_template eco gitUser name path template
            isLib).2.mpc.parties 1 .Honeybadger = .ok ())
    ∧ (∀ name path isLib,
        ((initialize_default eco gitUser name path
            isLib).2.mpc.protocol = "honeybadger") ∧
        5 ≤ (initialize_default eco gitUser name path isLib).2.mpc.parties ∧
        (initialize_default eco gitUser name path
            isLib).2.mpc.threshold = some 1 ∧
        validate_mpc_params
          (initialize_default eco gitUser name path isLib).2.mpc.parties 1
          .Honeybadger = .ok ()) := by
  refine ⟨?_, ?_, ?_⟩
  · intro inputs name path isLib ops cfg heq
    simp only [initialize_interactive] at heq
    by_cases h5 : inputs.parties < 5
    · rw [if_pos h5] at heq
      exact absurd (congrArg Prod.snd heq) (by simp)
    · rw [if_neg h5] at heq
      injection heq with h1 h2
      injection h2 with h3
      subst h3
      refine ⟨rfl, ?_, (inputs.parties - 1) / 3, rfl, ?_, ?_⟩
      · show 5 ≤ inputs.parties
        omega
      · show (inputs.parties - 1) / 3 < (inputs.parties + 2) / 3
        omega
      · show inputs.parties ≤ 253 →
          validate_mpc_params inputs.parties ((inputs.parties - 1) / 3)
            .Honeybadger = .ok ()
        intro hle
        exact validate_ok_of_auto _ (by omega) hle
  · intro name path template isLib
    refine ⟨rfl, ?_, rfl, ?_⟩
    · show (5 : Nat) ≤ 5
      omega
    · show validate_mpc_params 5 1 .Honeybadger = .ok ()
      rfl
  · intro name path isLib
    refine ⟨rfl, ?_, rfl, ?_⟩
    · show (5 : Nat) ≤ 5
      omega
    · show validate_mpc_params 5 1 .Honeybadger = .ok ()
      rfl

/-- Witness for `init_configs_invariant`: a concrete interactive session
with 9 parties, discharging the success-equation hypothesis by computation. -/
theorem init_configs_invariant_witness :
    ∃ ops cfg,
      initialize_interactive (fun _ _ _ => []) none
        ⟨"demo", "", "alice", 9, "", "5"⟩ "demo" "proj" true = (ops, .ok cfg) ∧
      cfg.mpc.protocol = "honeybadger" ∧ 5 ≤ cfg.mpc.parties ∧
      ∃ t, cfg.mpc.threshold = some t ∧ t < (cfg.mpc.parties + 2) / 3 ∧
        (cfg.mpc.parties ≤ 253 →
          validate_mpc_params cfg.mpc.parties t .Honeybadger = .ok ()) := by
  refine ⟨_, _, rfl, ?_⟩
  exact (init_configs_invariant (fun _ _ _ => []) none).1
    ⟨"demo", "", "alice", 9, "", "5"⟩ "demo" "proj" true _ _ rfl

/-- C10 counterexample: an interactive session entering 254 parties
constructs (and scaffolds) a config whose threshold is `84 = ⌊253/3⌋` — which
does satisfy `84 < (254+2)/3 = 85` in exact arithmetic — yet whose parameters
FAIL `validate_mpc_params`, because the validator's u8 computation
`parties + 2` wraps to `0`.  So not every manifest init writes passes
validation. -/
theorem init_config_overflow_cex :
    ∃ ops cfg,
      initialize_interactive (fun _ _ _ => []) none
        ⟨"demo", "", "alice", 254, "", "5"⟩ "demo" "proj" true =
        (ops, .ok cfg) ∧
      cfg.mpc.protocol = "honeybadger" ∧ cfg.mpc.parties = 254 ∧
      cfg.mpc.threshold = some 84 ∧ 84 < (254 + 2) / 3 ∧
      validate_mpc_params cfg.mpc.parties 84 .Honeybadger ≠ .ok () := by
  refine ⟨_, _, rfl, rfl, rfl, rfl, by omega, ?_⟩
  have he : validate_mpc_params 254 84 .Honeybadger =
      .error (thresholdErrMsg 254 255) := rfl
  simp [he]

/-! ## Manifest parsing (round-trip)

Modelled from the spec: downstream commands re-read the manifest (the
`toml` crate's `Deserialize` for `StoffelConfig`; that code is not part of
this repository's sources).  The parser below reads the manifest text
produced by `toml_to_string`: it splits lines, parses `[section]` headers,
`key = value` lines with string / integer / string-array values, skipping
blank lines, and extracts the `package` and `mpc` sections. -/

/-- A parsed TOML scalar or string-array value. -/
inductive TomlVal where
  | str (s : String)
  | nat (n : Nat)
  | arr (ss : List String)
deriving Repr, DecidableEq

/-- Split a character stream at newline characters (accumulator form). -/
def splitLinesAux : List Char → List Char → List (List Char)
  | [], acc => [acc.reverse]
  | c :: rest, acc =>
    if c = '\n' then acc.reverse :: splitLinesAux rest []
    else splitLinesAux rest (c :: acc)

/-- Split a character stream into its lines. -/
def splitLines (cs : List Char) : List (List Char) := splitLinesAux cs []

/-- Split a line at the first `" = "` separator, requiring the key part to
contain no space. -/
def splitKV : List Char → Option (List Char × List Char)
  | [] => none
  | c :: rest =>
    if c = ' ' then
      if rest.take 2 = ['=', ' '] then some ([], rest.drop 2) else none
    else
      (splitKV rest).map fun kv => (c :: kv.1, kv.2)

/-- Take characters up to the first `"` quote. -/
def splitQuote : List Char → Option (List Char × List Char)
  | [] => none
  | c :: rest =>
    if c = '"' then some ([], rest)
    else (splitQuote rest).map fun p => (c :: p.1, p.2)

theorem splitQuote_length {cs a b : List Char}
    (h : splitQuote cs = some (a, b)) : b.length < cs.length := by
  induction cs generalizing a b with
  | nil => simp [splitQuote] at h
  | cons c rest ih =>
    unfold splitQuote at h
    by_cases hc : c = '"'
    · rw [if_pos hc] at h
      injection h with h
      injection h with h1 h2
      subst h2
      simp
    · rw [if_neg hc] at h
      cases hs : splitQuote rest with
      | none => rw [hs] at h; simp at h
      | some p =>
        rw [hs] at h
        simp only [Option.map_some'] at h
        injection h with h
        have h2 : p.2 = b := congrArg Prod.snd h
        subst h2
        have := ih (a := p.1) (b := p.2) (by rw [hs])
        simp only [List.length_cons]
        omega

/-- The numeric value of a decimal digit character. -/
def digitVal (c : Char) : Option Nat :=
  if '0' ≤ c && c ≤ '9' then some (c.toNat - 48) else none

/-- Fold decimal digits into a number. -/
def parseNatAux : List Char → Nat → Option Nat
  | [], acc => some acc
  | c :: rest, acc =>
    match digitVal c with
    | some d => parseNatAux rest (acc * 10 + d)
    | none => none

/-- Parse a nonempty all-digit character list as a number. -/
def parseNatChars (cs : List Char) : Option Nat :=
  if cs.isEmpty then none else parseNatAux cs 0

/-- Parse the comma-separated quoted items of a string array, up to the
closing bracket (fuel-indexed structural recursion; the fuel is the input
length at the top-level call). -/
def parseItemsF : Nat → List Char → Option (List String)
  | 0, _ => none
  | _ + 1, [] => none
  | fuel + 1, c :: rest =>
    if c = '"' then
      (splitQuote rest).bind fun cr =>
        if cr.2 = [']'] then some [⟨cr.1⟩]
        else if cr.2.take 2 = [',', ' '] then
          (parseItemsF fuel (cr.2.drop 2)).map (⟨cr.1⟩ :: ·)
        else none
    else none

/-- Parse the comma-separated quoted items of a string array. -/
def parseItems (cs : List Char) : Option (List String) :=
  parseItemsF cs.length cs

/-- Parse a TOML value: quoted string, string array, or decimal number. -/
def parseValue (cs : List Char) : Option TomlVal :=
  match cs with
  | [] => none
  | c :: rest =>
    if c = '"' then
      (splitQuote rest).bind fun cr =>
        if cr.2 = [] then some (.str ⟨cr.1⟩) else none
    else if c = '[' then
      if rest = [']'] then some (.arr [])
      else (parseItems rest).map .arr
    else
      (parseNatChars cs).map .nat

/-- Drop leading blank lines. -/
def skipBlanks : List (List Char) → List (List Char)
  | [] => []
  | l :: rest => if l = [] then skipBlanks rest else l :: rest

/-- Consume a `[name]` header line (after blank lines). -/
def pHeader (name : String) (ls : List (List Char)) :
    Option (List (List Char)) :=
  match skipBlanks ls with
  | [] => none
  | l :: rest => if l = headerLine name then some rest else none

/-- Consume a mandatory `key = value` line (after blank lines). -/
def pKV (key : String) (ls : List (List Char)) :
    Option (TomlVal × List (List Char)) :=
  match skipBlanks ls with
  | [] => none
  | l :: rest =>
    match splitKV l with
    | none => none
    | some kv =>
      if kv.1 = key.data then (parseValue kv.2).map ((·, rest)) else none

/-- Consume an optional `key = value` line: on a key mismatch, a header, or
the stream end, consume nothing. -/
def pOptKV (key : String) (ls : List (List Char)) :
    Option TomlVal × List (List Char) :=
  match skipBlanks ls with
  | [] => (none, ls)
  | l :: rest =>
    match splitKV l with
    | none => (none, ls)
    | some kv =>
      if kv.1 = key.data then
        match parseValue kv.2 with
        | some tv => (some tv, rest)
        | none => (none, ls)
      else (none, ls)

/-- Expect a string value. -/
def asStr : TomlVal → Option String
  | .str s => some s
  | _ => none

/-- Expect a numeric value. -/
def asNat : TomlVal → Option Nat
  | .nat n => some n
  | _ => none

/-- Expect an absent field or a string value. -/
def asOptStr : Option TomlVal → Option (Option String)
  | none => some none
  | some (.str s) => some (some s)
  | some _ => none

/-- Expect an absent field or a numeric value. -/
def asOptNat : Option TomlVal → Option (Option Nat)
  | none => some none
  | some (.nat n) => some (some n)
  | some _ => none

/-- Expect an absent field or a string-array value. -/
def asOptArr : Option TomlVal → Option (Option (List String))
  | none => some none
  | some (.arr ss) => some (some ss)
  | some _ => none

/-- Parse the `[package]` section: name, version, then the optional
description, authors and license. -/
def parsePackage (ls : List (List Char)) :
    Option (PackageConfig × List (List Char)) := do
  let ls ← pHeader "package" ls
  let (nameV, ls) ← pKV "name" ls
  let name ← asStr nameV
  let (versionV, ls) ← pKV "version" ls
  let version ← asStr versionV
  let (descV, ls) := pOptKV "description" ls
  let description ← asOptStr descV
  let (authorsV, ls) := pOptKV "authors" ls
  let authors ← asOptArr authorsV
  let (licenseV, ls) := pOptKV "license" ls
  let license ← asOptStr licenseV
  some (⟨name, version, description, authors, license⟩, ls)

/-- Parse the `[mpc]` section: protocol, parties, optional threshold,
field. -/
def parseMpc (ls : List (List Char)) :
    Option (MpcConfig × List (List Char)) := do
  let ls ← pHeader "mpc" ls
  let (protocolV, ls) ← pKV "protocol" ls
  let protocol ← asStr protocolV
  let (partiesV, ls) ← pKV "parties" ls
  let parties ← asNat partiesV
  let (thresholdV, ls) := pOptKV "threshold" ls
  let threshold ← asOptNat thresholdV
  let (fieldV, ls) ← pKV "field" ls
  let fieldName ← asStr fieldV
  some (⟨protocol, parties, threshold, fieldName⟩, ls)

/-- Modelled from the spec: manifest deserialization by downstream commands
(the external `toml` crate; not in this repository's sources) — extract the
`package` and `mpc` sections from the manifest text, ignoring any trailing
dependency tables. -/
def parse_manifest (s : String) : Option (PackageConfig × MpcConfig) := do
  let (pkg, ls) ← parsePackage (splitLines s.data)
  let (mpc, _) ← parseMpc ls
  some (pkg, mpc)

theorem splitLinesAux_no_nl (l : List Char) (acc : List Char)
    (hl : '\n' ∉ l) : splitLinesAux l acc = [acc.reverse ++ l] := by
  induction l generalizing acc with
  | nil => simp [splitLinesAux]
  | cons c rest ih =>
    simp only [List.mem_cons, not_or] at hl
    have hc : ¬ c = '\n' := fun h => hl.1 h.symm
    rw [splitLinesAux, if_neg hc, ih (c :: acc) hl.2]
    simp

theorem splitLinesAux_append (l rest : List Char) (acc : List Char)
    (hl : '\n' ∉ l) :
    splitLinesAux (l ++ '\n' :: rest) acc =
      (acc.reverse ++ l) :: splitLinesAux rest [] := by
  induction l generalizing acc with
  | nil => simp [splitLinesAux]
  | cons c l2 ih =>
    simp only [List.mem_cons, not_or] at hl
    have hc : ¬ c = '\n' := fun h => hl.1 h.symm
    rw [List.cons_append, splitLinesAux, if_neg hc, ih (c :: acc) hl.2]
    simp

theorem splitLines_joinLines (ls : List (List Char)) (hne : ls ≠ [])
    (h : ∀ l ∈ ls, '\n' ∉ l) :
    splitLines (joinLines ls) = ls := by
  induction ls with
  | nil => cases hne rfl
  | cons l rest ih =>
    cases rest with
    | nil =>
      show splitLinesAux l [] = [l]
      simpa using splitLinesAux_no_nl l [] (h l (by simp))
    | cons l2 rest2 =>
      show splitLinesAux (l ++ '\n' :: joinLines (l2 :: rest2)) [] =
        l :: l2 :: rest2
      rw [splitLinesAux_append l _ [] (h l (by simp))]
      simp only [List.reverse_nil, List.nil_append]
      congr 1
      exact ih (by simp) (fun x hx => h x (by simp [hx]))

theorem splitKV_key (k v : List Char) (hk : ∀ c ∈ k, c ≠ ' ') :
    splitKV (k ++ ' ' :: '=' :: ' ' :: v) = some (k, v) := by
  induction k with
  | nil =>
    show splitKV (' ' :: '=' :: ' ' :: v) = some ([], v)
    rw [splitKV, if_pos rfl]
    simp
  | cons c k2 ih =>
    have hc : ¬ c = ' ' := hk c (List.mem_cons_self c k2)
    rw [List.cons_append, splitKV, if_neg hc,
      ih (fun x hx => hk x (List.mem_cons_of_mem _ hx))]
    rfl

theorem splitKV_none (cs : List Char) (h : ∀ c ∈ cs, c ≠ ' ') :
    splitKV cs = none := by
  induction cs with
  | nil => rfl
  | cons c rest ih =>
    have hc : ¬ c = ' ' := h c (List.mem_cons_self c rest)
    rw [splitKV, if_neg hc, ih (fun x hx => h x (List.mem_cons_of_mem _ hx))]
    rfl

theorem splitQuote_no_quote (s tail : List Char) (hs : ∀ c ∈ s, c ≠ '"') :
    splitQuote (s ++ '"' :: tail) = some (s, tail) := by
  induction s with
  | nil =>
    show splitQuote ('"' :: tail) = some ([], tail)
    rw [splitQuote, if_pos rfl]
  | cons c s2 ih =>
    have hc : ¬ c = '"' := hs c (List.mem_cons_self c s2)
    rw [List.cons_append, splitQuote, if_neg hc,
      ih (fun x hx => hs x (List.mem_cons_of_mem _ hx))]
    rfl

theorem parseValue_str (s : String) (hs : ∀ c ∈ s.data, c ≠ '"') :
    parseValue (quoteChars s) = some (.str s) := by
  show parseValue ('"' :: (s.data ++ ['"'])) = some (.str s)
  rw [parseValue, if_pos rfl,
    show s.data ++ ['"'] = s.data ++ '"' :: [] from rfl,
    splitQuote_no_quote s.data [] hs]
  rfl

set_option maxRecDepth 40000 in
theorem parseValue_nat_u8 : ∀ n < 256, parseValue (natChars n) = some (.nat n) := by
  decide

theorem parseItemsF_arrItems (ss : List String) (hne : ss ≠ [])
    (hs : ∀ s ∈ ss, ∀ c ∈ s.data, c ≠ '"') :
    ∀ fuel, (arrItems ss).length + 1 ≤ fuel →
      parseItemsF fuel (arrItems ss ++ [']']) = some ss := by
  induction ss with
  | nil => cases hne rfl
  | cons s rest ih =>
    intro fuel hf
    have hsq : ∀ c ∈ s.data, c ≠ '"' := hs s (List.mem_cons_self s rest)
    cases rest with
    | nil =>
      obtain ⟨f, rfl⟩ : ∃ f, fuel = f + 1 := ⟨fuel - 1, by omega⟩
      show parseItemsF (f + 1)
        (('"' :: (s.data ++ ['"'])) ++ [']']) = some [s]
      rw [show ('"' :: (s.data ++ ['"'])) ++ [']'] =
        '"' :: (s.data ++ '"' :: [']']) by simp]
      rw [parseItemsF, if_pos rfl, splitQuote_no_quote s.data [']'] hsq]
      rfl
    | cons s2 rest2 =>
      obtain ⟨f, rfl⟩ : ∃ f, fuel = f + 1 := ⟨fuel - 1, by omega⟩
      show parseItemsF (f + 1)
        ((quoteChars s ++ ',' :: ' ' :: arrItems (s2 :: rest2)) ++ [']']) =
        some (s :: s2 :: rest2)
      rw [show (quoteChars s ++ ',' :: ' ' :: arrItems (s2 :: rest2)) ++ [']'] =
        '"' :: (s.data ++ '"' :: ',' :: ' ' :: (arrItems (s2 :: rest2) ++ [']']))
          by simp [quoteChars]]
      rw [parseItemsF, if_pos rfl, splitQuote_no_quote s.data _ hsq]
      have hlen : (arrItems (s :: s2 :: rest2)).length =
          s.data.length + 2 + 2 + (arrItems (s2 :: rest2)).length := by
        show (quoteChars s ++ ',' :: ' ' :: arrItems (s2 :: rest2)).length = _
        simp [quoteChars]
        omega
      have hrec := ih (by simp)
        (fun x hx => hs x (List.mem_cons_of_mem _ hx)) f (by omega)
      simp only [Option.some_bind]
      rw [if_neg (by simp), if_pos (by simp)]
      simp only [List.drop_succ_cons, List.drop_zero, hrec]
      rfl

theorem parseValue_arr (ss : List String)
    (hs : ∀ s ∈ ss, ∀ c ∈ s.data, c ≠ '"') :
    parseValue (arrChars ss) = some (.arr ss) := by
  cases ss with
  | nil => rfl
  | cons s rest =>
    have harr : ∃ t, arrItems (s :: rest) = '"' :: t := by
      cases rest with
      | nil => exact ⟨s.data ++ ['"'], rfl⟩
      | cons s2 rest2 => exact ⟨s.data ++ ['"'] ++ ',' :: ' ' ::
          arrItems (s2 :: rest2), by simp [arrItems, quoteChars]⟩
    obtain ⟨t, ht⟩ := harr
    show parseValue ('[' :: (arrItems (s :: rest) ++ [']'])) =
      some (.arr (s :: rest))
    rw [parseValue, if_neg (by decide), if_pos rfl,
      if_neg (by rw [ht]; simp)]
    rw [parseItems, parseItemsF_arrItems (s :: rest) (by simp) hs _ (by simp)]
    rfl

theorem headerLine_ne_nil (name : String) : headerLine name ≠ [] := by
  simp [headerLine]

theorem kvLine_eq (key : String) (v : List Char) :
    kvLine key v = key.data ++ ' ' :: '=' :: ' ' :: v := rfl

theorem kvLine_ne_nil (key : String) (v : List Char) : kvLine key v ≠ [] := by
  intro h
  have := congrArg List.length h
  simp [kvLine_eq] at this

theorem skipBlanks_cons_ne (l : List Char) (ls : List (List Char))
    (h : ¬ l = []) : skipBlanks (l :: ls) = l :: ls := by
  rw [skipBlanks, if_neg h]

theorem skipBlanks_blank (ls : List (List Char)) :
    skipBlanks ([] :: ls) = skipBlanks ls := by
  rw [skipBlanks, if_pos rfl]

theorem pHeader_cons (name : String) (rest : List (List Char)) :
    pHeader name (headerLine name :: rest) = some rest := by
  unfold pHeader
  rw [skipBlanks_cons_ne _ _ (headerLine_ne_nil name)]
  simp

theorem pHeader_blank (name : String) (ls : List (List Char)) :
    pHeader name ([] :: ls) = pHeader name ls := by
  unfold pHeader
  rw [skipBlanks_blank]

theorem pKV_cons (key : String) (v : List Char) (rest : List (List Char))
    (hk : ∀ c ∈ key.data, c ≠ ' ') :
    pKV key (kvLine key v :: rest) = (parseValue v).map ((·, rest)) := by
  unfold pKV
  rw [skipBlanks_cons_ne _ _ (kvLine_ne_nil key v)]
  have h1 : splitKV (kvLine key v) = some (key.data, v) := by
    rw [kvLine_eq]
    exact splitKV_key _ _ hk
  simp [h1]

theorem pOptKV_hit (key : String) (v : List Char) (rest : List (List Char))
    (tv : TomlVal) (hk : ∀ c ∈ key.data, c ≠ ' ')
    (hv : parseValue v = some tv) :
    pOptKV key (kvLine key v :: rest) = (some tv, rest) := by
  unfold pOptKV
  rw [skipBlanks_cons_ne _ _ (kvLine_ne_nil key v)]
  have h1 : splitKV (kvLine key v) = some (key.data, v) := by
    rw [kvLine_eq]
    exact splitKV_key _ _ hk
  simp [h1, hv]

theorem pOptKV_miss_kv (key key2 : String) (v : List Char)
    (rest : List (List Char)) (hk2 : ∀ c ∈ key2.data, c ≠ ' ')
    (hne : ¬ key2.data = key.data) :
    pOptKV key (kvLine key2 v :: rest) = (none, kvLine key2 v :: rest) := by
  unfold pOptKV
  rw [skipBlanks_cons_ne _ _ (kvLine_ne_nil key2 v)]
  have h1 : splitKV (kvLine key2 v) = some (key2.data, v) := by
    rw [kvLine_eq]
    exact splitKV_key _ _ hk2
  simp [h1, hne]

theorem pOptKV_miss_header (key name : String) (rest : List (List Char))
    (hn : ∀ c ∈ headerLine name, c ≠ ' ') :
    pOptKV key (headerLine name :: rest) =
      (none, headerLine name :: rest) := by
  unfold pOptKV
  rw [skipBlanks_cons_ne _ _ (headerLine_ne_nil name)]
  simp [splitKV_none _ hn]

theorem pOptKV_miss_blank_header (key name : String) (rest : List (List Char))
    (hn : ∀ c ∈ headerLine name, c ≠ ' ') :
    pOptKV key ([] :: headerLine name :: rest) =
      (none, [] :: headerLine name :: rest) := by
  unfold pOptKV
  rw [skipBlanks_blank, skipBlanks_cons_ne _ _ (headerLine_ne_nil name)]
  simp [splitKV_none _ hn]

/-- A string that serializes verbatim into the manifest: no quote, no
backslash (nothing to escape), no newline. -/
def PlainStr (s : String) : Prop :=
  ∀ c ∈ s.data, c ≠ '"' ∧ c ≠ '\\' ∧ c ≠ '\n'

/-- Plainness of an optional string field. -/
def PlainOptStr : Option String → Prop
  | none => True
  | some s => PlainStr s

/-- Plainness of the optional author list. -/
def PlainAuthors : Option (List String) → Prop
  | none => True
  | some as => ∀ s ∈ as, PlainStr s

/-- An optional `u8` value stays in range. -/
def PlainOptNat : Option Nat → Prop
  | none => True
  | some t => t ≤ 255

/-- Plainness of an optional dependency table. -/
def PlainDeps : Option (List (String × String)) → Prop
  | none => True
  | some ds => ∀ kv ∈ ds, PlainStr kv.1 ∧ PlainStr kv.2

instance PlainStr.dec (s : String) : Decidable (PlainStr s) :=
  inferInstanceAs (Decidable (∀ c ∈ s.data, c ≠ '"' ∧ c ≠ '\\' ∧ c ≠ '\n'))

instance PlainOptStr.dec : (o : Option String) → Decidable (PlainOptStr o)
  | none => isTrue trivial
  | some s => inferInstanceAs (Decidable (PlainStr s))

instance PlainAuthors.dec : (o : Option (List String)) →
    Decidable (PlainAuthors o)
  | none => isTrue trivial
  | some as => inferInstanceAs (Decidable (∀ s ∈ as, PlainStr s))

instance PlainOptNat.dec : (o : Option Nat) → Decidable (PlainOptNat o)
  | none => isTrue trivial
  | some t => inferInstanceAs (Decidable (t ≤ 255))

instance PlainDeps.dec : (o : Option (List (String × String))) →
    Decidable (PlainDeps o)
  | none => isTrue trivial
  | some ds =>
    inferInstanceAs (Decidable (∀ kv ∈ ds, PlainStr kv.1 ∧ PlainStr kv.2))

/-- A config whose fields serialize without escaping and whose numeric
fields are in `u8` range (always true of configs the tool builds). -/
def GoodConfig (c : StoffelConfig) : Prop :=
  PlainStr c.package.name ∧ PlainStr c.package.version ∧
  PlainOptStr c.package.description ∧ PlainAuthors c.package.authors ∧
  PlainOptStr c.package.license ∧ PlainStr c.mpc.protocol ∧
  PlainStr c.mpc.field ∧ c.mpc.parties ≤ 255 ∧
  PlainOptNat c.mpc.threshold ∧ PlainDeps c.dependencies ∧
  PlainDeps c.dev_dependencies

theorem parsePackage_lines (p : PackageConfig) (rest : List (List Char))
    (hname : PlainStr p.name) (hver : PlainStr p.version)
    (hdesc : PlainOptStr p.description) (hauth : PlainAuthors p.authors)
    (hlic : PlainOptStr p.license) :
    parsePackage (packageLines p ++ [] :: headerLine "mpc" :: rest) =
      some (p, [] :: headerLine "mpc" :: rest) := by
  obtain ⟨n, v, d, a, l⟩ := p
  have hvn := parseValue_str n (fun c hc => (hname c hc).1)
  have hvv := parseValue_str v (fun c hc => (hver c hc).1)
  have hN := fun (v2 : List Char) (r : List (List Char)) =>
    pKV_cons "name" v2 r (by decide)
  have hV := fun (v2 : List Char) (r : List (List Char)) =>
    pKV_cons "version" v2 r (by decide)
  have hMB := fun (key : String) (r : List (List Char)) =>
    pOptKV_miss_blank_header key "mpc" r (by decide)
  have hDmissA := fun (v2 : List Char) (r : List (List Char)) =>
    pOptKV_miss_kv "description" "authors" v2 r (by decide) (by decide)
  have hDmissL := fun (v2 : List Char) (r : List (List Char)) =>
    pOptKV_miss_kv "description" "license" v2 r (by decide) (by decide)
  have hAmissL := fun (v2 : List Char) (r : List (List Char)) =>
    pOptKV_miss_kv "authors" "license" v2 r (by decide) (by decide)
  cases d with
  | none =>
    cases a with
    | none =>
      cases l with
      | none =>
        simp only [packageLines, optLine, List.cons_append, List.nil_append,
          List.append_nil, parsePackage, pHeader_cons, Option.pure_def,
          Option.bind_eq_bind, Option.some_bind, hN,
          hvn, Option.map_some', asStr, hV, hvv, hMB, asOptStr, asOptArr]
      | some ls =>
        have hvl := parseValue_str ls (fun c hc => (hlic c hc).1)
        have hLhit := fun (r : List (List Char)) =>
          pOptKV_hit "license" (quoteChars ls) r (.str ls) (by decide) hvl
        simp only [packageLines, optLine, List.cons_append, List.nil_append,
          List.append_nil, parsePackage, pHeader_cons, Option.pure_def,
          Option.bind_eq_bind, Option.some_bind, hN,
          hvn, Option.map_some', asStr, hV, hvv, hDmissL, hAmissL, hLhit,
          asOptStr, asOptArr]
    | some as =>
      have hva := parseValue_arr as (fun s hs c hc => (hauth s hs c hc).1)
      have hAhit := fun (r : List (List Char)) =>
        pOptKV_hit "authors" (arrChars as) r (.arr as) (by decide) hva
      cases l with
      | none =>
        simp only [packageLines, optLine, List.cons_append, List.nil_append,
          List.append_nil, parsePackage, pHeader_cons, Option.pure_def,
          Option.bind_eq_bind, Option.some_bind, hN,
          hvn, Option.map_some', asStr, hV, hvv, hDmissA, hAhit, hMB,
          asOptStr, asOptArr]
      | some ls =>
        have hvl := parseValue_str ls (fun c hc => (hlic c hc).1)
        have hLhit := fun (r : List (List Char)) =>
          pOptKV_hit "license" (quoteChars ls) r (.str ls) (by decide) hvl
        simp only [packageLines, optLine, List.cons_append, List.nil_append,
          List.append_nil, parsePackage, pHeader_cons, Option.pure_def,
          Option.bind_eq_bind, Option.some_bind, hN,
          hvn, Option.map_some', asStr, hV, hvv, hDmissA, hAhit, hLhit,
          asOptStr, asOptArr]
  | some ds =>
    have hvd := parseValue_str ds (fun c hc => (hdesc c hc).1)
    have hDhit := fun (r : List (List Char)) =>
      pOptKV_hit "description" (quoteChars ds) r (.str ds) (by decide) hvd
    cases a with
    | none =>
      cases l with
      | none =>
        simp only [packageLines, optLine, List.cons_append, List.nil_append,
          List.append_nil, parsePackage, pHeader_cons, Option.pure_def,
          Option.bind_eq_bind, Option.some_bind, hN,
          hvn, Option.map_some', asStr, hV, hvv, hDhit, hMB, asOptStr,
          asOptArr]
      | some ls =>
        have hvl := parseValue_str ls (fun c hc => (hlic c hc).1)
        have hLhit := fun (r : List (List Char)) =>
          pOptKV_hit "license" (quoteChars ls) r (.str ls) (by decide) hvl
        simp only [packageLines, optLine, List.cons_append, List.nil_append,
          List.append_nil, parsePackage, pHeader_cons, Option.pure_def,
          Option.bind_eq_bind, Option.some_bind, hN,
          hvn, Option.map_some', asStr, hV, hvv, hDhit, hAmissL, hLhit,
          asOptStr, asOptArr]
    | some as =>
      have hva := parseValue_arr as (fun s hs c hc => (hauth s hs c hc).1)
      have hAhit := fun (r : List (List Char)) =>
        pOptKV_hit "authors" (arrChars as) r (.arr as) (by decide) hva
      cases l with
      | none =>
        simp only [packageLines, optLine, List.cons_append, List.nil_append,
          List.append_nil, parsePackage, pHeader_cons, Option.pure_def,
          Option.bind_eq_bind, Option.some_bind, hN,
          hvn, Option.map_some', asStr, hV, hvv, hDhit, hAhit, hMB, asOptStr,
          asOptArr]
      | some ls =>
        have hvl := parseValue_str ls (fun c hc => (hlic c hc).1)
        have hLhit := fun (r : List (List Char)) =>
          pOptKV_hit "license" (quoteChars ls) r (.str ls) (by decide) hvl
        simp only [packageLines, optLine, List.cons_append, List.nil_append,
          List.append_nil, parsePackage, pHeader_cons, Option.pure_def,
          Option.bind_eq_bind, Option.some_bind, hN,
          hvn, Option.map_some', asStr, hV, hvv, hDhit, hAhit, hLhit,
          asOptStr, asOptArr]

theorem parseMpc_lines (m : MpcConfig) (rest : List (List Char))
    (hprot : PlainStr m.protocol) (hfield : PlainStr m.field)
    (hpar : m.parties ≤ 255) (hthr : PlainOptNat m.threshold) :
    parseMpc (mpcLines m ++ rest) = some (m, rest) := by
  obtain ⟨pr, pa, th, fi⟩ := m
  have hvp := parseValue_str pr (fun c hc => (hprot c hc).1)
  have hvf := parseValue_str fi (fun c hc => (hfield c hc).1)
  have hpa' : pa ≤ 255 := hpar
  have hvpa := parseValue_nat_u8 pa (by omega)
  have hP := fun (v2 : List Char) (r : List (List Char)) =>
    pKV_cons "protocol" v2 r (by decide)
  have hPa := fun (v2 : List Char) (r : List (List Char)) =>
    pKV_cons "parties" v2 r (by decide)
  have hF := fun (v2 : List Char) (r : List (List Char)) =>
    pKV_cons "field" v2 r (by decide)
  cases th with
  | none =>
    have hTmiss := fun (v2 : List Char) (r : List (List Char)) =>
      pOptKV_miss_kv "threshold" "field" v2 r (by decide) (by decide)
    simp only [mpcLines, optLine, List.cons_append, List.nil_append,
      List.append_nil, parseMpc, pHeader_cons, Option.pure_def,
      Option.bind_eq_bind, Option.some_bind, hP, hvp,
      Option.map_some', asStr, hPa, hvpa, asNat, hTmiss, asOptNat, hF, hvf]
  | some t =>
    have ht' : t ≤ 255 := hthr
    have hvt := parseValue_nat_u8 t (by omega)
    have hThit := fun (r : List (List Char)) =>
      pOptKV_hit "threshold" (natChars t) r (.nat t) (by decide) hvt
    simp only [mpcLines, optLine, List.cons_append, List.nil_append,
      List.append_nil, parseMpc, pHeader_cons, Option.pure_def,
      Option.bind_eq_bind, Option.some_bind, hP, hvp,
      Option.map_some', asStr, hPa, hvpa, asNat, hThit, asOptNat, hF, hvf]

theorem PlainStr.no_nl {s : String} (hs : PlainStr s) : '\n' ∉ s.data :=
  fun h => (hs _ h).2.2 rfl

theorem quoteChars_no_nl (s : String) (hs : PlainStr s) :
    '\n' ∉ quoteChars s := by
  intro h
  simp only [quoteChars, List.mem_cons, List.mem_append,
    List.mem_singleton] at h
  rcases h with h | h | h
  · exact absurd h (by decide)
  · exact (hs _ h).2.2 rfl
  · exact absurd h (by decide)

set_option maxRecDepth 40000 in
theorem natChars_no_nl : ∀ n < 256, '\n' ∉ natChars n := by decide

theorem arrItems_no_nl (ss : List String) (hs : ∀ s ∈ ss, PlainStr s) :
    '\n' ∉ arrItems ss := by
  induction ss with
  | nil => simp [arrItems]
  | cons s rest ih =>
    cases rest with
    | nil => exact quoteChars_no_nl s (hs s (by simp))
    | cons s2 r2 =>
      show '\n' ∉ quoteChars s ++ ',' :: ' ' :: arrItems (s2 :: r2)
      intro h
      simp only [List.mem_append, List.mem_cons] at h
      rcases h with h | h | h | h
      · exact quoteChars_no_nl s (hs s (by simp)) h
      · exact absurd h (by decide)
      · exact absurd h (by decide)
      · exact ih (fun x hx => hs x (List.mem_cons_of_mem _ hx)) h

theorem arrChars_no_nl (ss : List String) (hs : ∀ s ∈ ss, PlainStr s) :
    '\n' ∉ arrChars ss := by
  intro h
  simp only [arrChars, List.mem_cons, List.mem_append,
    List.mem_singleton] at h
  rcases h with h | h | h
  · exact absurd h (by decide)
  · exact arrItems_no_nl ss hs h
  · exact absurd h (by decide)

theorem kvLine_no_nl (key : String) (v : List Char) (hk : '\n' ∉ key.data)
    (hv : '\n' ∉ v) : '\n' ∉ kvLine key v := by
  intro h
  rw [kvLine_eq] at h
  simp only [List.mem_append, List.mem_cons] at h
  rcases h with h | h | h | h | h
  · exact hk h
  · exact absurd h (by decide)
  · exact absurd h (by decide)
  · exact absurd h (by decide)
  · exact hv h

theorem headerLine_no_nl (name : String) (hn : '\n' ∉ name.data) :
    '\n' ∉ headerLine name := by
  intro h
  simp only [headerLine, List.mem_cons, List.mem_append,
    List.mem_singleton] at h
  rcases h with h | h | h
  · exact absurd h (by decide)
  · exact hn h
  · exact absurd h (by decide)

theorem mem_optLine {α : Type} (key : String) (enc : α → List Char)
    (o : Option α) (l : List Char) (h : l ∈ optLine key enc o) :
    ∃ x, o = some x ∧ l = kvLine key (enc x) := by
  cases o with
  | none => simp [optLine] at h
  | some x =>
    simp only [optLine, List.mem_singleton] at h
    exact ⟨x, rfl, h⟩

theorem mem_depLines (title : String) (d : Option (List (String × String)))
    (l : List Char) (h : l ∈ depLines title d) :
    l = [] ∨ l = headerLine title ∨
      ∃ kv, (∃ ds, d = some ds ∧ kv ∈ ds) ∧
        l = kvLine kv.1 (quoteChars kv.2) := by
  cases d with
  | none => simp [depLines] at h
  | some ds =>
    simp only [depLines, List.mem_cons, List.mem_map] at h
    rcases h with h | h | ⟨kv, hkv, hl⟩
    · exact Or.inl h
    · exact Or.inr (Or.inl h)
    · exact Or.inr (Or.inr ⟨kv, ⟨ds, rfl, hkv⟩, hl.symm⟩)

theorem depLines_no_nl (title : String) (hn : '\n' ∉ title.data)
    (d : Option (List (String × String))) (hd : PlainDeps d) :
    ∀ l ∈ depLines title d, '\n' ∉ l := by
  intro l hl
  rcases mem_depLines title d l hl with h | h | ⟨kv, ⟨ds, hds, hkv⟩, hl2⟩
  · subst h
    simp
  · subst h
    exact headerLine_no_nl title hn
  · subst hl2
    have hplain : PlainStr kv.1 ∧ PlainStr kv.2 := by
      rw [hds] at hd
      exact hd kv hkv
    exact kvLine_no_nl _ _ hplain.1.no_nl (quoteChars_no_nl _ hplain.2)

theorem packageLines_no_nl (p : PackageConfig) (hname : PlainStr p.name)
    (hver : PlainStr p.version) (hdesc : PlainOptStr p.description)
    (hauth : PlainAuthors p.authors) (hlic : PlainOptStr p.license) :
    ∀ l ∈ packageLines p, '\n' ∉ l := by
  intro l hl
  simp only [packageLines, List.mem_append, List.mem_cons,
    List.not_mem_nil, or_false] at hl
  rcases hl with (((h | h | h) | h) | h) | h
  all_goals try subst h
  · exact headerLine_no_nl "package" (by decide)
  · exact kvLine_no_nl _ _ (by decide) (quoteChars_no_nl _ hname)
  · exact kvLine_no_nl _ _ (by decide) (quoteChars_no_nl _ hver)
  · obtain ⟨x, hx, rfl⟩ := mem_optLine _ _ _ _ h
    rw [hx] at hdesc
    exact kvLine_no_nl _ _ (by decide) (quoteChars_no_nl _ hdesc)
  · obtain ⟨x, hx, rfl⟩ := mem_optLine _ _ _ _ h
    rw [hx] at hauth
    exact kvLine_no_nl _ _ (by decide) (arrChars_no_nl _ hauth)
  · obtain ⟨x, hx, rfl⟩ := mem_optLine _ _ _ _ h
    rw [hx] at hlic
    exact kvLine_no_nl _ _ (by decide) (quoteChars_no_nl _ hlic)

theorem mpcLines_no_nl (m : MpcConfig) (hprot : PlainStr m.protocol)
    (hfield : PlainStr m.field) (hpar : m.parties ≤ 255)
    (hthr : PlainOptNat m.threshold) :
    ∀ l ∈ mpcLines m, '\n' ∉ l := by
  intro l hl
  simp only [mpcLines, List.mem_append, List.mem_cons,
    List.not_mem_nil, or_false] at hl
  rcases hl with ((h | h | h) | h) | h
  all_goals try subst h
  · exact headerLine_no_nl "mpc" (by decide)
  · exact kvLine_no_nl _ _ (by decide) (quoteChars_no_nl _ hprot)
  · exact kvLine_no_nl _ _ (by decide) (natChars_no_nl _ (by omega))
  · obtain ⟨x, hx, rfl⟩ := mem_optLine _ _ _ _ h
    rw [hx] at hthr
    have hx255 : x ≤ 255 := hthr
    exact kvLine_no_nl _ _ (by decide) (natChars_no_nl _ (by omega))
  · exact kvLine_no_nl _ _ (by decide) (quoteChars_no_nl _ hfield)

theorem configLines_no_nl (c : StoffelConfig) (h : GoodConfig c) :
    ∀ l ∈ configLines c, '\n' ∉ l := by
  obtain ⟨hname, hver, hdesc, hauth, hlic, hprot, hfield, hpar, hthr,
    hdep, hdd⟩ := h
  intro l hl
  simp only [configLines, List.mem_append, List.mem_cons] at hl
  rcases hl with ((hp | (hb | hm)) | hd1) | hd2
  · exact packageLines_no_nl c.package hname hver hdesc hauth hlic l hp
  · subst hb
    simp
  · exact mpcLines_no_nl c.mpc hprot hfield hpar hthr l hm
  · exact depLines_no_nl "dependencies" (by decide) c.dependencies hdep l hd1
  · exact depLines_no_nl "dev_dependencies" (by decide) c.dev_dependencies
      hdd l hd2

theorem configLines_ne_nil (c : StoffelConfig) : configLines c ≠ [] := by
  simp [configLines, packageLines]

/-- The body of the `[mpc]` section after its header line. -/
def mpcBody (m : MpcConfig) : List (List Char) :=
  kvLine "protocol" (quoteChars m.protocol) ::
    kvLine "parties" (natChars m.parties) ::
    (optLine "threshold" natChars m.threshold ++
      [kvLine "field" (quoteChars m.field)])

theorem mpcLines_eq (m : MpcConfig) :
    mpcLines m = headerLine "mpc" :: mpcBody m := rfl

theorem configLines_eq (c : StoffelConfig) :
    configLines c = packageLines c.package ++ [] :: headerLine "mpc" ::
      (mpcBody c.mpc ++
        (depLines "dependencies" c.dependencies ++
          depLines "dev_dependencies" c.dev_dependencies)) := by
  unfold configLines
  rw [mpcLines_eq]
  simp [List.append_assoc]

theorem parseMpc_blank (ls : List (List Char)) :
    parseMpc ([] :: ls) = parseMpc ls := by
  unfold parseMpc
  rw [pHeader_blank]

/-- C7: a config whose string fields need no escaping and whose numeric
fields are in u8 range (true of all configs the tool constructs)
serializes to a manifest that re-parses to identical package and MPC
fields. -/
theorem manifest_roundtrip (c : StoffelConfig) (h : GoodConfig c) :
    parse_manifest (toml_to_string c) = some (c.package, c.mpc) := by
  obtain ⟨hname, hver, hdesc, hauth, hlic, hprot, hfield, hpar, hthr,
    hdep, hdd⟩ := h
  unfold parse_manifest toml_to_string
  rw [show (String.mk (joinLines (configLines c))).data =
    joinLines (configLines c) from rfl]
  rw [splitLines_joinLines (configLines c) (configLines_ne_nil c)
    (configLines_no_nl c ⟨hname, hver, hdesc, hauth, hlic, hprot, hfield,
      hpar, hthr, hdep, hdd⟩)]
  rw [configLines_eq]
  rw [parsePackage_lines c.package _ hname hver hdesc hauth hlic]
  simp only [Option.bind_eq_bind, Option.some_bind]
  rw [parseMpc_blank,
    show headerLine "mpc" :: (mpcBody c.mpc ++
        (depLines "dependencies" c.dependencies ++
          depLines "dev_dependencies" c.dev_dependencies)) =
      mpcLines c.mpc ++
        (depLines "dependencies" c.dependencies ++
          depLines "dev_dependencies" c.dev_dependencies) from by
      rw [mpcLines_eq]
      rfl,
    parseMpc_lines c.mpc _ hprot hfield hpar hthr]
  rfl

/-- A sample configuration for the round-trip witness (the default-init
shape with an explicit author). -/
def sampleConfig : StoffelConfig :=
  { package :=
      { name := "demo", version := "0.1.0", description := none,
        authors := some ["alice"], license := some "MIT" },
    mpc :=
      { protocol := "honeybadger", parties := 5, threshold := some 1,
        field := "bls12-381" },
    dependencies := none, dev_dependencies := none }

/-- Witness for `manifest_roundtrip` on `sampleConfig`. -/
theorem manifest_roundtrip_witness :
    GoodConfig sampleConfig ∧
      parse_manifest (toml_to_string sampleConfig) =
        some (sampleConfig.package, sampleConfig.mpc) := by
  have hGood : GoodConfig sampleConfig :=
    ⟨by decide, by decide, trivial, by decide, by decide, by decide,
      by decide, by decide, by decide, trivial, trivial⟩
  exact ⟨hGood, manifest_roundtrip sampleConfig hGood⟩

end Stoffel
